import Mathlib

set_option maxHeartbeats 1000000
set_option maxRecDepth 8000

namespace ChqReq

/-! Shallow embedding of the ChqReq-V4 extraction engine: `src/ocr.py`
(field agents, line-item parser, consensus selector, `run_agents`) and
`src/duplicate.py` (fingerprints, duplicate locator).  Python strings are
modelled as Lean `String`s (lists of code points); Python's Unicode-aware
character classes (`\s`, `\w`, `str.lower`, `str.strip`) are modelled on
their ASCII behaviour, which is what every string appearing in the program
and its spec uses.  Python floats carry only small decimal constants here,
so confidences are modelled as rationals.  Each regular expression of the
source is embedded as a dedicated backtracking matcher whose doc comment
cites the pattern it implements. -/

/-- ASCII lowercasing of one character, the ASCII behaviour of Python `str.lower`. -/
def toLowerCh (c : Char) : Char :=
  if 65 ≤ c.toNat ∧ c.toNat ≤ 90 then Char.ofNat (c.toNat + 32) else c

/-- Whitespace for Python `\s`, `str.split`, `str.strip` (ASCII model):
space, tab, newline, carriage return, vertical tab, form feed. -/
def isSpaceCh (c : Char) : Bool :=
  c == ' ' || c == '\t' || c == '\n' || c == '\r' || c.toNat == 11 || c.toNat == 12

/-- Digit class for Python regex `\d` (ASCII model). -/
def isDigitCh (c : Char) : Bool :=
  decide (48 ≤ c.toNat ∧ c.toNat ≤ 57)

/-- Word-character class for Python regex `\w` and `\b` (ASCII model):
letters, digits, underscore. -/
def isWordCh (c : Char) : Bool :=
  isDigitCh c || decide (65 ≤ c.toNat ∧ c.toNat ≤ 90) ||
    decide (97 ≤ c.toNat ∧ c.toNat ≤ 122) || c == '_'

/-- Character class `[:\s]` used by the vendor and invoice-number patterns. -/
def isColonSpace (c : Char) : Bool :=
  c == ':' || isSpaceCh c

/-- Character class `[\w-]` used by the invoice-number patterns. -/
def isWordDash (c : Char) : Bool :=
  isWordCh c || c == '-'

/-- Character class `[\d,]` used by the tax/amount money group. -/
def isDigitComma (c : Char) : Bool :=
  isDigitCh c || c == ','

/-- Line-break characters recognised by Python `str.splitlines`. -/
def isLineBreak (c : Char) : Bool :=
  c.toNat == 10 || c.toNat == 13 || c.toNat == 11 || c.toNat == 12 ||
    c.toNat == 28 || c.toNat == 29 || c.toNat == 30 || c.toNat == 133 ||
    c.toNat == 8232 || c.toNat == 8233

/-- Truth of `isDigitCh` on an optional preceding character, for the
lookbehind `(?<!\d)`; an absent character (start of text) is not a digit. -/
def digitOpt : Option Char → Bool
  | none => false
  | some c => isDigitCh c

/-- Truth of `isWordCh` on an optional preceding character, for the word
boundary `\b`; an absent character (start of text) is not a word character. -/
def isWordOpt : Option Char → Bool
  | none => false
  | some c => isWordCh c

/-- Python `str.strip()` on a list of code points (ASCII whitespace model). -/
def pyStripL (l : List Char) : List Char :=
  ((l.dropWhile isSpaceCh).reverse.dropWhile isSpaceCh).reverse

/-- Python `str.strip()`. -/
def pyStrip (s : String) : String :=
  String.mk (pyStripL s.data)

/-- Python `str.lower()` (ASCII model). -/
def pyLower (s : String) : String :=
  String.mk (s.data.map toLowerCh)

/-- Replace every maximal whitespace run by a single space, the effect of
`re.sub(r"\s+", " ", text)`; the flag records whether the previous character
was part of a whitespace run already replaced. -/
def collapseGo : Bool → List Char → List Char
  | _, [] => []
  | inRun, c :: cs =>
    if isSpaceCh c then
      if inRun then collapseGo true cs else ' ' :: collapseGo true cs
    else c :: collapseGo false cs

/-- `_clean_text` of `src/ocr.py`: `re.sub(r"\s+", " ", text).strip()`. -/
def clean_text (s : String) : String :=
  String.mk (pyStripL (collapseGo false s.data))

/-- Python `str.split()` with no separator: whitespace-delimited words,
no empty words; `cur` is the reversed word being accumulated. -/
def wordsGo (cur : List Char) : List Char → List (List Char)
  | [] => if cur.isEmpty then [] else [cur.reverse]
  | c :: cs =>
    if isSpaceCh c then
      if cur.isEmpty then wordsGo [] cs else cur.reverse :: wordsGo [] cs
    else wordsGo (c :: cur) cs

/-- Python `str.split()` with no separator. -/
def pyWordsL (l : List Char) : List (List Char) :=
  wordsGo [] l

/-- `normalize_text` of `src/duplicate.py`:
`" ".join((text or "").lower().split())`. -/
def normalize_text (text : String) : String :=
  String.mk (List.intercalate [' '] (pyWordsL (text.data.map toLowerCh)))

/-- Python `str.splitlines()` body: `cur` is the reversed current line; a
`"\r\n"` pair counts as one break and a trailing break opens no new line. -/
def slGo (cur : List Char) : List Char → List (List Char)
  | [] => [cur.reverse]
  | c :: cs =>
    if c == '\r' then
      match cs with
      | '\n' :: r => cur.reverse :: (if r.isEmpty then [] else slGo [] r)
      | r => cur.reverse :: (if r.isEmpty then [] else slGo [] r)
    else if isLineBreak c then
      cur.reverse :: (if cs.isEmpty then [] else slGo [] cs)
    else slGo (c :: cur) cs

/-- Python `str.splitlines()`; the empty string yields no lines. -/
def py_splitlines (s : String) : List String :=
  if s.data.isEmpty then [] else (slGo [] s.data).map String.mk

/-- Case-insensitive literal match: `lit` (given in lowercase) against a
prefix of `s`; returns the remainder on success. -/
def matchLitCI : List Char → List Char → Option (List Char)
  | [], s => some s
  | _ :: _, [] => none
  | l :: ls, c :: cs => if toLowerCh c == l then matchLitCI ls cs else none

/-! SHA-256 (FIPS 180-4), used by `compute_fingerprints` via
`hashlib.sha256(...).hexdigest()`.  32-bit words are `Nat`s reduced
modulo `2 ^ 32`. -/

/-- UTF-8 bytes of one code point, for Python `str.encode("utf-8")`. -/
def utf8Bytes (c : Char) : List Nat :=
  let n := c.toNat
  if n < 128 then [n]
  else if n < 2048 then [192 + n / 64, 128 + n % 64]
  else if n < 65536 then [224 + n / 4096, 128 + (n / 64) % 64, 128 + n % 64]
  else [240 + n / 262144, 128 + (n / 4096) % 64, 128 + (n / 64) % 64, 128 + n % 64]

/-- UTF-8 encoding of a string as a byte list. -/
def utf8Encode (s : String) : List Nat :=
  s.data.foldr (fun c acc => utf8Bytes c ++ acc) []

/-- Reduction modulo `2 ^ 32`. -/
def w32 (n : Nat) : Nat := n % 4294967296

/-- Right rotation of a 32-bit word. -/
def rotr (k n : Nat) : Nat := w32 ((n >>> k) ||| (n <<< (32 - k)))

/-- SHA-256 Σ₀. -/
def bigS0 (n : Nat) : Nat := rotr 2 n ^^^ rotr 13 n ^^^ rotr 22 n

/-- SHA-256 Σ₁. -/
def bigS1 (n : Nat) : Nat := rotr 6 n ^^^ rotr 11 n ^^^ rotr 25 n

/-- SHA-256 σ₀. -/
def smallS0 (n : Nat) : Nat := rotr 7 n ^^^ rotr 18 n ^^^ (n >>> 3)

/-- SHA-256 σ₁. -/
def smallS1 (n : Nat) : Nat := rotr 17 n ^^^ rotr 19 n ^^^ (n >>> 10)

/-- SHA-256 Ch, with 32-bit complement written as xor with the full mask. -/
def chF (e f g : Nat) : Nat := (e &&& f) ^^^ ((4294967295 ^^^ e) &&& g)

/-- SHA-256 Maj. -/
def majF (a b c : Nat) : Nat := (a &&& b) ^^^ (a &&& c) ^^^ (b &&& c)

/-- The sixty-four SHA-256 round constants of FIPS 180-4 (the fractional
parts of the cube roots of the first primes), written in decimal. -/
def sha256K : List Nat :=
  [1116352408, 1899447441, 3049323471, 3921009573, 961987163,
   1508970993, 2453635748, 2870763221, 3624381080, 310598401,
   607225278, 1426881987, 1925078388, 2162078206, 2614888103,
   3248222580, 3835390401, 4022224774, 264347078, 604807628,
   770255983, 1249150122, 1555081692, 1996064986, 2554220882,
   2821834349, 2952996808, 3210313671, 3336571891, 3584528711,
   113926993, 338241895, 666307205, 773529912, 1294757372,
   1396182291, 1695183700, 1986661051, 2177026350, 2456956037,
   2730485921, 2820302411, 3259730800, 3345764771, 3516065817,
   3600352804, 4094571909, 275423344, 430227734, 506948616,
   659060556, 883997877, 958139571, 1322822218, 1537002063,
   1747873779, 1955562222, 2024104815, 2227730452, 2361852424,
   2428436474, 2756734187, 3204031479, 3329325298]

/-- The eight initial hash values of FIPS 180-4, written in decimal. -/
def sha256H0 : List Nat :=
  [1779033703, 3144134277, 1013904242, 2773480762, 1359893119,
   2600822924, 528734635, 1541459225]

/-- `k` big-endian bytes of `n`. -/
def beBytes : Nat → Nat → List Nat
  | 0, _ => []
  | k + 1, n => beBytes k (n / 256) ++ [n % 256]

/-- SHA-256 padding: a `0x80` byte, zeros, then the 64-bit bit length. -/
def sha256Pad (msg : List Nat) : List Nat :=
  let len := msg.length
  msg ++ [128] ++ List.replicate ((119 - len % 64) % 64) 0 ++ beBytes 8 (len * 8)

/-- Split a byte list into 64-byte blocks; the fuel bounds the recursion
and any value of at least `bs.length` is enough. -/
def chunks64 : Nat → List Nat → List (List Nat)
  | 0, _ => []
  | _, [] => []
  | fuel + 1, bs => bs.take 64 :: chunks64 fuel (bs.drop 64)

/-- Big-endian 32-bit words of a byte list. -/
def beWords : List Nat → List Nat
  | b0 :: b1 :: b2 :: b3 :: rest =>
    (b0 * 16777216 + b1 * 65536 + b2 * 256 + b3) :: beWords rest
  | _ => []

/-- Extend the 16-word message schedule by `k` further words. -/
def extendW : Nat → List Nat → List Nat
  | 0, w => w
  | k + 1, w =>
    let n := w.length
    let nw := w32 ((w.getD (n - 16) 0) + smallS0 (w.getD (n - 15) 0) +
                   (w.getD (n - 7) 0) + smallS1 (w.getD (n - 2) 0))
    extendW k (w ++ [nw])

/-- One SHA-256 compression round on the eight-word state. -/
def sha256Round (st : List Nat) (kw : Nat × Nat) : List Nat :=
  match st with
  | [a, b, c, d, e, f, g, h] =>
    let t1 := w32 (h + bigS1 e + chF e f g + kw.1 + kw.2)
    let t2 := w32 (bigS0 a + majF a b c)
    [w32 (t1 + t2), a, b, c, w32 (d + t1), e, f, g]
  | other => other

/-- Process one 64-byte block. -/
def sha256Block (hs : List Nat) (block : List Nat) : List Nat :=
  let w := extendW 48 (beWords block)
  let st := (sha256K.zip w).foldl sha256Round hs
  List.zipWith (fun h v => w32 (h + v)) hs st

/-- SHA-256 digest (32 bytes) of a byte list. -/
def sha256Bytes (msg : List Nat) : List Nat :=
  let padded := sha256Pad msg
  let hs := (chunks64 padded.length padded).foldl sha256Block sha256H0
  hs.foldr (fun wd acc => beBytes 4 wd ++ acc) []

/-- One lowercase hex digit. -/
def hexDigit (n : Nat) : Char :=
  if n < 10 then Char.ofNat (48 + n) else Char.ofNat (87 + n)

/-- Lowercase hex string of a byte list. -/
def bytesToHex (bs : List Nat) : List Char :=
  bs.foldr (fun b acc => hexDigit (b / 16) :: hexDigit (b % 16) :: acc) []

/-- `hashlib.sha256(s.encode("utf-8")).hexdigest()`. -/
def sha256_hex (s : String) : String :=
  String.mk (bytesToHex (sha256Bytes (utf8Encode s)))

/-! Backtracking building blocks for the embedded regular expressions.
Greedy bounded repetition is realised by trying the largest number of
consumed characters first and backing off one at a time, exactly as the
Python engine does. -/

/-- Greedy `class*`: try dropping `j` characters of `rest` first, backing
off to zero, handing the remainder to `cont`; callers pass `j` equal to the
length of the maximal run of the class, so every tried drop stays inside
the run. -/
def tryDrops {α : Type} (cont : List Char → Option α) (rest : List Char) :
    Nat → Option α
  | 0 => cont rest
  | j + 1 =>
    match cont (rest.drop (j + 1)) with
    | some r => some r
    | none => tryDrops cont rest j

/-- Greedy `class+`: as `tryDrops` but at least one character must be
consumed. -/
def tryDropsPos {α : Type} (cont : List Char → Option α) (rest : List Char) :
    Nat → Option α
  | 0 => none
  | j + 1 =>
    match cont (rest.drop (j + 1)) with
    | some r => some r
    | none => tryDropsPos cont rest j

/-- Greedy `\d{lo,·}`: try `j` digits first, backing off down to `lo`;
callers pass `j = min hi r` for a digit run of length `r`. -/
def goDigits (lo : Nat) (cont : List Char → Option (List Char)) (rest : List Char) :
    Nat → Option (List Char)
  | 0 => if lo = 0 then cont rest else none
  | j + 1 =>
    if j + 1 < lo then none
    else
      match cont (rest.drop (j + 1)) with
      | some r => some r
      | none => goDigits lo cont rest j

/-- Number of consecutive `,\d{3}` units at the head of the list, the
maximal iteration count of the star in `MONEY_PAT`. -/
def countCommaGroups : List Char → Nat
  | ',' :: a :: b :: c :: rest =>
    if isDigitCh a && isDigitCh b && isDigitCh c then countCommaGroups rest + 1 else 0
  | _ => 0

/-- Greedy `(?:,\d{3})*`: each unit is exactly four characters, so trying
`j` units means dropping `4 * j` characters. -/
def tryCommaGroups {α : Type} (cont : List Char → Option α) (rest : List Char) :
    Nat → Option α
  | 0 => cont rest
  | j + 1 =>
    match cont (rest.drop (4 * (j + 1))) with
    | some r => some r
    | none => tryCommaGroups cont rest j

/-- Tail `\.\d{2}` of `MONEY_PAT` followed by the lookahead `(?!\d)`;
consumes the three characters and returns the remaining suffix. -/
def dotTwo : List Char → Option (List Char)
  | '.' :: d1 :: d2 :: rest =>
    if isDigitCh d1 && isDigitCh d2 then
      match rest with
      | [] => some []
      | c :: _ => if isDigitCh c then none else some rest
    else none
  | _ => none

/-- Attempt of `MONEY_PAT` =
`(?<!\d)(\d{1,3}(?:,\d{3})*(?:\.\d{2})|\d+\.\d{2})(?!\d)` at the start of
`s`, with `prev` the character just before `s` for the lookbehind; returns
the match length. -/
def moneyAt (prev : Option Char) (s : List Char) : Option Nat :=
  if digitOpt prev then none
  else
    match (match goDigits 1 (fun r => tryCommaGroups dotTwo r (countCommaGroups r)) s
             (min 3 (s.takeWhile isDigitCh).length) with
           | some r => some r
           | none => goDigits 1 dotTwo s (s.takeWhile isDigitCh).length) with
    | some r => some (s.length - r.length)
    | none => none

/-- `MONEY_PAT.findall`: fuelled left-to-right non-overlapping scan; any
fuel of at least the text length is enough, since each step consumes at
least one character. -/
def moneyScanF : Nat → Option Char → List Char → List (List Char)
  | 0, _, _ => []
  | _, _, [] => []
  | fuel + 1, prev, c :: cs =>
    match moneyAt prev (c :: cs) with
    | some len =>
      ((c :: cs).take len) :: moneyScanF fuel ((c :: cs).take len).getLast? (cs.drop (len - 1))
    | none => moneyScanF fuel (some c) cs

/-- `MONEY_PAT.findall(s)` (the single group is the whole alternation). -/
def moneyFindall (s : String) : List String :=
  (moneyScanF s.data.length none s.data).map String.mk

/-- Trailing word boundary `\b`: the next character, if any, must not be a
word character; consumes nothing. -/
def boundaryAfter : List Char → Option (List Char)
  | [] => some []
  | c :: cs => if isWordCh c then none else some (c :: cs)

/-- Optional fraction `(?:\.\d+)?` of the quantity pattern followed by the
trailing `\b`; the fraction is tried greedily before being skipped. -/
def qtyOptFrac (r : List Char) : Option (List Char) :=
  match (match r with
         | '.' :: r2 => goDigits 1 boundaryAfter r2 (r2.takeWhile isDigitCh).length
         | _ => none) with
  | some res => some res
  | none => boundaryAfter r

/-- Attempt of `\b(\d+(?:\.\d+)?)\b` at the start of `s` (the leading `\b`
holds because the first matched character is a digit and `prev` must not be
a word character); returns the group. -/
def qtyAt (prev : Option Char) (s : List Char) : Option (List Char) :=
  if isWordOpt prev then none
  else
    match s with
    | [] => none
    | c :: _ =>
      if isDigitCh c then
        match goDigits 1 qtyOptFrac s (s.takeWhile isDigitCh).length with
        | some r => some (s.take (s.length - r.length))
        | none => none
      else none

/-- `re.search` scan for the quantity pattern: group of the leftmost match. -/
def qtyScanGo (prev : Option Char) : List Char → Option (List Char)
  | [] => none
  | c :: cs =>
    match qtyAt prev (c :: cs) with
    | some g => some g
    | none => qtyScanGo (some c) cs

/-- Group of `re.search(r"\b(\d+(?:\.\d+)?)\b", s)`. -/
def qtyGroup (s : String) : Option String :=
  (qtyScanGo none s.data).map String.mk

/-- After a case-insensitive `vendor` literal: `[:\s]+` (greedy, backing
off) then the group `(.+)` — at least one character other than `\n`,
extending greedily to the end of the line. -/
def vendorAfter (rest : List Char) : Option (List Char) :=
  tryDropsPos
    (fun after =>
      match after with
      | [] => none
      | c :: _ =>
        if c == '\n' then none
        else some (after.takeWhile (fun d => !(d == '\n'))))
    rest (rest.takeWhile isColonSpace).length

/-- Group 1 of `re.search(r"vendor[:\s]+(.+)", text, re.IGNORECASE)`. -/
def vendorScan : List Char → Option (List Char)
  | [] => none
  | c :: cs =>
    match matchLitCI "vendor".data (c :: cs) with
    | some rest =>
      match vendorAfter rest with
      | some g => some g
      | none => vendorScan cs
    | none => vendorScan cs

/-- Optional registration suffix `(?:\s*RT\s*0001)?` of `HST_PAT`
(case-insensitive), tried greedily, then the trailing `\b`; returns the
remaining suffix. -/
def hstSuffix (rest : List Char) : Option (List Char) :=
  let withSuf :=
    tryDrops
      (fun r1 =>
        match matchLitCI "rt".data r1 with
        | some r2 =>
          tryDrops
            (fun r3 =>
              match r3 with
              | '0' :: '0' :: '0' :: '1' :: r4 => boundaryAfter r4
              | _ => none)
            r2 (r2.takeWhile isSpaceCh).length
        | none => none)
      rest (rest.takeWhile isSpaceCh).length
  match withSuf with
  | some r => some r
  | none => boundaryAfter rest

/-- Attempt of `HST_PAT` = `\b(\d{9})(?:\s*RT\s*0001)?\b` (case-insensitive)
at the start of `s`: group 1, the nine digits. -/
def hstAt (prev : Option Char) (s : List Char) : Option (List Char) :=
  if isWordOpt prev then none
  else
    let ds := s.take 9
    if ds.length == 9 && ds.all isDigitCh then
      match hstSuffix (s.drop 9) with
      | some _ => some ds
      | none => none
    else none

/-- `re.search` scan for `HST_PAT`. -/
def hstScanGo (prev : Option Char) : List Char → Option (List Char)
  | [] => none
  | c :: cs =>
    match hstAt prev (c :: cs) with
    | some ds => some ds
    | none => hstScanGo (some c) cs

/-- `[:\s]*` then the group `([\w-]+)` of the invoice-number pattern. -/
def invTail (r : List Char) : Option (List Char) :=
  tryDrops
    (fun r2 =>
      match r2 with
      | [] => none
      | c :: _ => if isWordDash c then some (r2.takeWhile isWordDash) else none)
    r (r.takeWhile isColonSpace).length

/-- Optional label suffix `(no\.?|#)?` (case-insensitive) of the
invoice-number pattern, alternatives in the engine's order: `no.`, `no`,
`#`, then the group absent. -/
def invAlts (r : List Char) : Option (List Char) :=
  let t1 :=
    match matchLitCI "no.".data r with
    | some r2 => invTail r2
    | none => none
  match t1 with
  | some g => some g
  | none =>
    let t2 :=
      match matchLitCI "no".data r with
      | some r2 => invTail r2
      | none => none
    match t2 with
    | some g => some g
    | none =>
      let t3 :=
        match r with
        | '#' :: r2 => invTail r2
        | _ => none
      match t3 with
      | some g => some g
      | none => invTail r

/-- After a case-insensitive `invoice` literal: `\s*` then the optional
label suffix and the token group. -/
def invAfter (rest : List Char) : Option (List Char) :=
  tryDrops invAlts rest (rest.takeWhile isSpaceCh).length

/-- Group 2 of
`re.search(r"invoice\s*(no\.?|#)?[:\s]*([\w-]+)", text, re.IGNORECASE)`. -/
def invoiceScan : List Char → Option (List Char)
  | [] => none
  | c :: cs =>
    match matchLitCI "invoice".data (c :: cs) with
    | some rest =>
      match invAfter rest with
      | some g => some g
      | none => invoiceScan cs
    | none => invoiceScan cs

/-- `re.findall(r"INV[\w-]+", text)` — note: this pattern is compiled
without `re.IGNORECASE`, so the literal `INV` is case-sensitive. Fuelled
non-overlapping scan. -/
def invFindallF : Nat → List Char → List (List Char)
  | 0, _ => []
  | _, [] => []
  | fuel + 1, c :: cs =>
    if c == 'I' then
      match cs with
      | 'N' :: 'V' :: r =>
        let tok := r.takeWhile isWordDash
        if tok.isEmpty then invFindallF fuel cs
        else ('I' :: 'N' :: 'V' :: tok) :: invFindallF fuel (r.drop tok.length)
      | _ => invFindallF fuel cs
    else invFindallF fuel cs

/-- `re.findall(r"INV[\w-]+", text)`. -/
def invFindall (s : String) : List String :=
  (invFindallF s.data.length s.data).map String.mk

/-- One `[/\-]` separator character of `DATE_PAT`. -/
def matchSep : List Char → Option (List Char)
  | c :: cs => if c == '/' || c == '-' then some cs else none
  | [] => none

/-- Attempt of `DATE_PAT` =
`(\d{1,2}[/\-]\d{1,2}[/\-]\d{2,4}|\d{4}[/\-]\d{1,2}[/\-]\d{1,2})` at the start
of `s`; returns the match length. -/
def dateAt (s : List Char) : Option Nat :=
  let dig := fun (lo hi : Nat) (r : List Char) (cont : List Char → Option (List Char)) =>
    goDigits lo cont r (min hi (r.takeWhile isDigitCh).length)
  let arm1 :=
    dig 1 2 s (fun r1 =>
      match matchSep r1 with
      | some r2 =>
        dig 1 2 r2 (fun r3 =>
          match matchSep r3 with
          | some r4 => dig 2 4 r4 some
          | none => none)
      | none => none)
  let res :=
    match arm1 with
    | some r => some r
    | none =>
      dig 4 4 s (fun r1 =>
        match matchSep r1 with
        | some r2 =>
          dig 1 2 r2 (fun r3 =>
            match matchSep r3 with
            | some r4 => dig 1 2 r4 some
            | none => none)
        | none => none)
  match res with
  | some r => some (s.length - r.length)
  | none => none

/-- `DATE_PAT.search`: leftmost match (group 1 is the whole match). -/
def dateScan : List Char → Option (List Char)
  | [] => none
  | c :: cs =>
    match dateAt (c :: cs) with
    | some len => some ((c :: cs).take len)
    | none => dateScan cs

/-- Split on `/` or `-`, for reading the components of a date token. -/
def splitSepGo (cur : List Char) : List Char → List (List Char)
  | [] => [cur.reverse]
  | c :: cs =>
    if c == '/' || c == '-' then cur.reverse :: splitSepGo [] cs
    else splitSepGo (c :: cur) cs

/-- Decimal value of a digit list. -/
def natOfDigits (l : List Char) : Nat :=
  l.foldl (fun a c => a * 10 + (c.toNat - 48)) 0

/-- Days of a month in the Gregorian calendar. -/
def daysInMonth (y m : Nat) : Nat :=
  if m == 2 then
    if (y % 4 == 0 && !(y % 100 == 0)) || y % 400 == 0 then 29 else 28
  else if m == 4 || m == 6 || m == 9 || m == 11 then 30
  else 31

/-- Zero-padded decimal representation. -/
def padNat (w n : Nat) : List Char :=
  let ds := Nat.toDigits 10 n
  List.replicate (w - ds.length) '0' ++ ds

/-- Modelled from the spec: `dateutil.parser.parse(raw, dayfirst=False)`
followed by `.date().isoformat()`.  The `dateutil` library is an external
dependency, not part of this repository's sources; the spec says a
date-shaped token (`D/M/Y` or `Y/M/D`, 2–4 digit year) is parsed into a
calendar date and an unparsable match is kept as the raw string.  We model
month-first reading for the `D/M/Y` shape (`dayfirst=False`), the usual
two-digit-year pivot (below 50 means 2000s, otherwise 1900s) and calendar
validation; no claim depends on the result of this parse beyond the
success/failure shape. -/
def parseDateModel (raw : List Char) : Option (List Char) :=
  match splitSepGo [] raw with
  | [p1, p2, p3] =>
    let fixYear := fun (y : Nat) => if y < 100 then (if y < 50 then 2000 + y else 1900 + y) else y
    let ymd :=
      if p1.length == 4 then (natOfDigits p1, natOfDigits p2, natOfDigits p3)
      else (fixYear (natOfDigits p3), natOfDigits p1, natOfDigits p2)
    match ymd with
    | (y, m, d) =>
      if 1 ≤ m ∧ m ≤ 12 ∧ 1 ≤ d ∧ d ≤ daysInMonth y m then
        some (padNat 4 y ++ ['-'] ++ padNat 2 m ++ ['-'] ++ padNat 2 d)
      else none
  | _ => none

/-- Money group `(\d[\d,]*\.\d{2})` of the tax/amount patterns (no
lookarounds); returns the group. -/
def dotTwoAmt : List Char → Option (List Char)
  | '.' :: d1 :: d2 :: rest =>
    if isDigitCh d1 && isDigitCh d2 then some rest else none
  | _ => none

/-- The group `(\d[\d,]*\.\d{2})`: one digit, a greedy `[\d,]*` run backing
off until `\.\d{2}` fits. -/
def amtGroup (r : List Char) : Option (List Char) :=
  match r with
  | [] => none
  | c :: r1 =>
    if isDigitCh c then
      match tryDrops dotTwoAmt r1 (r1.takeWhile isDigitComma).length with
      | some rem => some (r.take (r.length - rem.length))
      | none => none
    else none

/-- After the label literal: `\s*[:$]?\s*` then the money group; the
optional `[:$]` is tried present first. -/
def amtAfter (rest : List Char) : Option (List Char) :=
  tryDrops
    (fun r1 =>
      let withSym :=
        match r1 with
        | c :: r2 =>
          if c == ':' || c == '$' then
            tryDrops amtGroup r2 (r2.takeWhile isSpaceCh).length
          else none
        | [] => none
      match withSym with
      | some g => some g
      | none => tryDrops amtGroup r1 (r1.takeWhile isSpaceCh).length)
    rest (rest.takeWhile isSpaceCh).length

/-- Group 1 of the tax/amount search
`re.search(rf"LABEL\s*[:$]?\s*(\d[\d,]*\.\d{2})", text, re.IGNORECASE)`
for a literal label given in lowercase. -/
def amtScan (label : List Char) : List Char → Option (List Char)
  | [] => none
  | c :: cs =>
    match matchLitCI label (c :: cs) with
    | some rest =>
      match amtAfter rest with
      | some g => some g
      | none => amtScan label cs
    | none => amtScan label cs

/-- Matcher for `re.search(r"\d{2,4}\s+", line)` at one position: two to
four digits (greedy) followed by at least one whitespace character. -/
def streetNumAt (s : List Char) : Option (List Char) :=
  goDigits 2
    (fun r =>
      match r with
      | c :: _ => if isSpaceCh c then some r else none
      | [] => none)
    s (min 4 (s.takeWhile isDigitCh).length)

/-- `re.search(r"\d{2,4}\s+", line)` succeeds somewhere in the line. -/
def streetNumScan : List Char → Bool
  | [] => false
  | c :: cs => (streetNumAt (c :: cs)).isSome || streetNumScan cs

/-- Substring containment, for Python's `needle in haystack`. -/
def containsSubGo (needle : List Char) : List Char → Bool
  | [] => needle.isEmpty
  | c :: cs => needle.isPrefixOf (c :: cs) || containsSubGo needle cs

/-- Decimal representation of a natural number, for Python `str(n)`. -/
def natRepr (n : Nat) : String :=
  String.mk (Nat.toDigits 10 n)

/-- Four lowercase hex digits, for `json.dumps` unicode escapes. -/
def hex4 (n : Nat) : List Char :=
  [hexDigit (n / 4096 % 16), hexDigit (n / 256 % 16), hexDigit (n / 16 % 16), hexDigit (n % 16)]

/-- JSON escaping of one character as by `json.dumps` with its default
`ensure_ascii=True` behaviour. -/
def jsonEscapeChar (c : Char) : List Char :=
  if c == '"' then ['\\', '"']
  else if c == '\\' then ['\\', '\\']
  else if c == '\n' then ['\\', 'n']
  else if c == '\r' then ['\\', 'r']
  else if c == '\t' then ['\\', 't']
  else if c.toNat == 8 then ['\\', 'b']
  else if c.toNat == 12 then ['\\', 'f']
  else if c.toNat < 32 || c.toNat > 126 then
    if c.toNat < 65536 then '\\' :: 'u' :: hex4 c.toNat
    else
      let n := c.toNat - 65536
      ('\\' :: 'u' :: hex4 (55296 + n / 1024)) ++ ('\\' :: 'u' :: hex4 (56320 + n % 1024))
  else [c]

/-- One JSON string literal. -/
def jsonStr (s : String) : List Char :=
  '"' :: (s.data.foldr (fun c acc => jsonEscapeChar c ++ acc) []) ++ ['"']

/-- `json.dumps` of a list of strings (default separators). -/
def jsonDumpsList (l : List String) : String :=
  String.mk ('[' :: List.intercalate [',', ' '] (l.map jsonStr) ++ [']'])

/-! The field agents of `src/ocr.py`. -/

/-- `AgentResult` of `src/ocr.py`; the float confidence is a rational and
the meta dict an association list in insertion order. -/
structure AgentResult where
  value : Option String
  confidence : ℚ
  meta : List (String × String)
deriving DecidableEq, Repr

/-- `agent_vendor` of `src/ocr.py`. -/
def agent_vendor (text : String) : AgentResult :=
  match vendorScan text.data with
  | some g => ⟨some (clean_text (String.mk g)), mkRat 9 10, [("source", "keyword")]⟩
  | none =>
    let lines := ((py_splitlines text).map pyStrip).filter (fun l => !l.isEmpty)
    match lines with
    | l :: _ => ⟨some (l.take 120), mkRat 2 5, [("source", "first-line")]⟩
    | [] => ⟨none, 0, [("source", "none")]⟩

/-- `agent_hst` of `src/ocr.py`: the nine digits, reformatted with the
fixed suffix. -/
def agent_hst (text : String) : AgentResult :=
  match hstScanGo none text.data with
  | some num => ⟨some (String.mk num ++ " RT0001"), mkRat 17 20, [("source", "regex")]⟩
  | none => ⟨none, 0, [("source", "none")]⟩

/-- Candidate condition of `agent_address`: the line contains `street`
(lowercased) or matches `\d{2,4}\s+`. -/
def addressCond (line : String) : Bool :=
  containsSubGo "street".data (line.data.map toLowerCh) || streetNumScan line.data

/-- One address candidate built from the window `blocks[idx : idx + 4]`. -/
def addressCandidate (chunk : List String) : AgentResult :=
  ⟨some (String.intercalate "\n" chunk), mkRat 3 4,
   [("source", "street"), ("lines", jsonDumpsList chunk)]⟩

/-- The candidate list of `agent_address`, in block order. -/
def addressCandidates : List String → List AgentResult
  | [] => []
  | b :: bs =>
    (if addressCond b then [addressCandidate ((b :: bs).take 4)] else []) ++
      addressCandidates bs

/-- Python `max(candidates, key=lambda c: c.confidence)`: the first
element of maximal confidence. -/
def pyMaxByConf (c : AgentResult) (cs : List AgentResult) : AgentResult :=
  cs.foldl (fun best x => if x.confidence > best.confidence then x else best) c

/-- `agent_address` of `src/ocr.py`. -/
def agent_address (text : String) : AgentResult :=
  let blocks := ((py_splitlines text).map pyStrip).filter (fun l => !l.isEmpty)
  match addressCandidates blocks with
  | c :: cs => pyMaxByConf c cs
  | [] =>
    match blocks with
    | _ :: _ => ⟨some (String.intercalate "\n" (blocks.take 3)), mkRat 2 5, [("source", "top-lines")]⟩
    | [] => ⟨none, 0, [("source", "none")]⟩

/-- First line whose lowercase form contains `description`. -/
def descrFind : List String → Option String
  | [] => none
  | l :: ls =>
    if containsSubGo "description".data (l.data.map toLowerCh) then some l
    else descrFind ls

/-- `agent_description` of `src/ocr.py`; the fallback confidence mirrors
the source's truthiness test `0.3 if snippet else 0.0`. -/
def agent_description (text : String) : AgentResult :=
  let lines := ((py_splitlines text).map pyStrip).filter (fun l => !l.isEmpty)
  match descrFind lines with
  | some l => ⟨some l, mkRat 3 5, [("source", "keyword")]⟩
  | none =>
    match lines with
    | [] => ⟨none, 0, [("source", "snippet")]⟩
    | _ :: _ =>
      let snippet := (String.intercalate " " (lines.take 2)).take 200
      ⟨some snippet, if snippet.isEmpty then 0 else mkRat 3 10, [("source", "snippet")]⟩

/-- `agent_invoice_number` of `src/ocr.py`: labelled token first, then the
case-sensitive `INV`-prefix fallback. -/
def agent_invoice_number (text : String) : AgentResult :=
  match invoiceScan text.data with
  | some g => ⟨some (String.mk g), mkRat 9 10, [("source", "regex")]⟩
  | none =>
    match invFindall text with
    | t :: _ => ⟨some t, mkRat 1 2, [("source", "inv")]⟩
    | [] => ⟨none, 0, [("source", "none")]⟩

/-- `agent_invoice_date` of `src/ocr.py`. -/
def agent_invoice_date (text : String) : AgentResult :=
  match dateScan text.data with
  | none => ⟨none, 0, [("source", "none")]⟩
  | some raw =>
    match parseDateModel raw with
    | some iso => ⟨some (String.mk iso), mkRat 4 5, [("raw", String.mk raw)]⟩
    | none => ⟨some (String.mk raw), mkRat 1 2, [("source", "unparsed")]⟩

/-- `LineItemRow`: one row dict of `agent_line_items`, fields in the
source's insertion order. -/
structure LineItemRow where
  qty : String
  description : String
  coding : String
  unit_price : String
  tax : String
  line_total : String
deriving DecidableEq, Repr

/-- The body of the row loop of `agent_line_items` for one line: a row is
produced iff the line has at least one money token and a quantity match. -/
def lineRow (line : String) : Option LineItemRow :=
  match moneyFindall line, qtyGroup line with
  | m :: ms, some q =>
    some { qty := q, description := pyStrip (line.take 80), coding := "",
           unit_price := m, tax := ms.headD "",
           line_total := (m :: ms).getLast (List.cons_ne_nil m ms) }
  | _, _ => none

/-- Result of `agent_line_items`: the rows and the confidence. The source
returns the rows JSON-serialised inside an `AgentResult` and `run_agents`
immediately deserialises them; that round-trip is modelled by carrying the
row list itself. -/
structure LineAgentResult where
  rows : List LineItemRow
  confidence : ℚ
  meta : List (String × String)
deriving DecidableEq, Repr

/-- The non-blank lines kept by `agent_line_items` (unstripped). -/
def pyLines (text : String) : List String :=
  (py_splitlines text).filter (fun l => !(pyStrip l).isEmpty)

/-- `agent_line_items` of `src/ocr.py`. -/
def agent_line_items (text : String) : LineAgentResult :=
  let rows := (pyLines text).filterMap lineRow
  if rows.isEmpty then ⟨[], mkRat 1 10, [("source", "none")]⟩
  else ⟨rows, mkRat 3 5, [("count", natRepr rows.length)]⟩

/-- `agent_tax` of `src/ocr.py` for a literal label (the label is
interpolated into the pattern; all labels the source passes are literals). -/
def agent_tax (text : String) (tax_label : String) : AgentResult :=
  match amtScan (tax_label.data.map toLowerCh) text.data with
  | some g => ⟨some (String.mk g), mkRat 17 20, [("source", "regex")]⟩
  | none => ⟨none, 0, [("source", "none")]⟩

/-- `agent_amount` of `src/ocr.py`: labelled amount first, then the last
money token of the whole text. -/
def agent_amount (text : String) (label : String) : AgentResult :=
  match amtScan (label.data.map toLowerCh) text.data with
  | some g => ⟨some (String.mk g), mkRat 9 10, [("source", "regex")]⟩
  | none =>
    match (moneyFindall text).getLast? with
    | some t => ⟨some t, mkRat 2 5, [("source", "fallback")]⟩
    | none => ⟨none, 0, [("source", "none")]⟩

/-! The consensus selector and `run_agents`. -/

/-- `pick_text` of `src/ocr.py`, polymorphic in the selected value (the
source applies it to field strings and to serialised row lists). -/
def pick_text {α : Type} (native ocr_text : α) (native_conf ocr_conf : ℚ) :
    α × ℚ × String :=
  if native_conf > ocr_conf then (native, native_conf, "native")
  else if ocr_conf > native_conf then (ocr_text, ocr_conf, "ocr")
  else (native, native_conf, "native")

/-- One `results` entry of the scalar-agent loop of `run_agents`. -/
structure FieldOut where
  value : Option String
  confidence : ℚ
  picked : String
  nativeMeta : List (String × String)
  ocrMeta : List (String × String)
  valueMeta : Option String
deriving DecidableEq, Repr

/-- One `results` entry of the tax and amount loops of `run_agents`. -/
structure PickedOut where
  value : Option String
  confidence : ℚ
  picked : String
deriving DecidableEq, Repr

/-- The `line_items` entry of `run_agents`. -/
structure LineItemsOut where
  rows : List LineItemRow
  confidence : ℚ
  picked : String
deriving DecidableEq, Repr

/-- The full `results` dict of `run_agents`, keys in insertion order. -/
structure RunResults where
  vendor : FieldOut
  hst : FieldOut
  address : FieldOut
  description : FieldOut
  invoice_number : FieldOut
  invoice_date : FieldOut
  line_items : LineItemsOut
  hst_amount : PickedOut
  pst_amount : PickedOut
  gst_amount : PickedOut
  amount_before_hst : PickedOut
  amount_total : PickedOut
deriving DecidableEq, Repr

/-- The scalar-field reduction of the first loop of `run_agents`:
`value or None`, stored confidence `max(native, ocr)`, and the meta record
with the picked source (the optional `meta["value"]` entry is kept as
`valueMeta`). -/
def scalarField (agent : String → AgentResult) (native_text ocr_text : String) : FieldOut :=
  let nr := agent native_text
  let orr := if !ocr_text.isEmpty then agent ocr_text else ⟨none, 0, [("source", "skip")]⟩
  let p := pick_text (nr.value.getD "") (orr.value.getD "") nr.confidence orr.confidence
  { value := if p.1.isEmpty then none else some p.1,
    confidence := max nr.confidence orr.confidence,
    picked := p.2.2,
    nativeMeta := nr.meta, ocrMeta := orr.meta,
    valueMeta := if p.1.isEmpty then none else some p.1 }

/-- The tax/amount reduction of the later loops of `run_agents`:
`value or None` and the confidence of the picked source. -/
def pickedField (nr orr : AgentResult) : PickedOut :=
  let p := pick_text (nr.value.getD "") (orr.value.getD "") nr.confidence orr.confidence
  { value := if p.1.isEmpty then none else some p.1,
    confidence := p.2.1,
    picked := p.2.2 }

/-- `run_agents` of `src/ocr.py` over the two acquired texts; text
acquisition (`extract_pdf_text`, `extract_ocr_space`) is the external
collaborator producing them, and an empty OCR text is replaced by the
synthesised zero-confidence skip result exactly as in the source. -/
def run_agents (native_text ocr_text : String) : RunResults :=
  let skip : AgentResult := ⟨none, 0, [("source", "skip")]⟩
  let native_lines := agent_line_items native_text
  let ocr_lines : LineAgentResult :=
    if !ocr_text.isEmpty then agent_line_items ocr_text else ⟨[], 0, [("source", "skip")]⟩
  let lp := pick_text native_lines.rows ocr_lines.rows native_lines.confidence ocr_lines.confidence
  { vendor := scalarField agent_vendor native_text ocr_text,
    hst := scalarField agent_hst native_text ocr_text,
    address := scalarField agent_address native_text ocr_text,
    description := scalarField agent_description native_text ocr_text,
    invoice_number := scalarField agent_invoice_number native_text ocr_text,
    invoice_date := scalarField agent_invoice_date native_text ocr_text,
    line_items := { rows := lp.1,
                    confidence := max native_lines.confidence ocr_lines.confidence,
                    picked := lp.2.2 },
    hst_amount := pickedField (agent_tax native_text "HST")
      (if !ocr_text.isEmpty then agent_tax ocr_text "HST" else skip),
    pst_amount := pickedField (agent_tax native_text "PST")
      (if !ocr_text.isEmpty then agent_tax ocr_text "PST" else skip),
    gst_amount := pickedField (agent_tax native_text "GST")
      (if !ocr_text.isEmpty then agent_tax ocr_text "GST" else skip),
    amount_before_hst := pickedField (agent_amount native_text "Subtotal")
      (if !ocr_text.isEmpty then agent_amount ocr_text "Subtotal" else skip),
    amount_total := pickedField (agent_amount native_text "Total")
      (if !ocr_text.isEmpty then agent_amount ocr_text "Total" else skip) }

/-! `src/duplicate.py`: fingerprints and the duplicate locator. -/

/-- The four metadata values consulted by `compute_fingerprints`
(`meta.get(key)`). -/
structure MetaIn where
  vendor : Option String
  invoice_number : Option String
  amount_total : Option String
  invoice_date : Option String

/-- `compute_fingerprints` of `src/duplicate.py`; `meta.get(k) or ""` is
modelled by `getD ""`. -/
def compute_fingerprints (text : String) (meta : MetaIn) : Option String × Option String :=
  let normalized := normalize_text text
  let fp_a := if 200 < normalized.length then some (sha256_hex normalized) else none
  let vendor := pyLower (pyStrip (meta.vendor.getD ""))
  let invoice := pyLower (pyStrip (meta.invoice_number.getD ""))
  let total := pyLower (pyStrip (meta.amount_total.getD ""))
  let inv_date := pyLower (pyStrip (meta.invoice_date.getD ""))
  let concat := String.intercalate "|" ([vendor, invoice, total, inv_date].filter (fun s => !s.isEmpty))
  let fp_b := if !concat.isEmpty then some (sha256_hex concat) else none
  (fp_a, fp_b)

/-- Python truthiness of an optional string (`if fp_a:`): present and
non-empty. -/
def truthyOpt : Option String → Bool
  | none => false
  | some s => !s.isEmpty

/-- `find_duplicates` of `src/duplicate.py`.  The persisted store behind
`db.conn` is an external collaborator, abstracted as the `store` function
from SQL text and parameters to matching row ids; the second component of
the result counts the queries issued. -/
def find_duplicates (fp_a fp_b : Option String)
    (store : String → List String → List Nat) : List Nat × Nat :=
  let clauses := (if truthyOpt fp_a then ["fingerprint_a = ?"] else []) ++
                 (if truthyOpt fp_b then ["fingerprint_b = ?"] else [])
  let params := (if truthyOpt fp_a then [fp_a.getD ""] else []) ++
                (if truthyOpt fp_b then [fp_b.getD ""] else [])
  if clauses.isEmpty then ([], 0)
  else
    (store ("SELECT id FROM cheque_requests WHERE " ++ String.intercalate " OR " clauses)
      params, 1)

/-- The unit-interval invariant on a confidence value. -/
def confIn01 (c : ℚ) : Prop := 0 ≤ c ∧ c ≤ 1

/-- The scenario text of the spec's testable property on the full pipeline. -/
def scenarioText : String :=
  "Vendor: Acme Corp\nInvoice #12345\nSubtotal: 500.00\nHST 65.00\nTotal: 565.00"

/-- The character just before the suffix `suf` when a scan over `pre ++ suf`
started with preceding character `prev`: the last character of `pre` if any. -/
def prevOf (prev : Option Char) (pre : List Char) : Option Char :=
  match pre.getLast? with
  | some c => some c
  | none => prev

/-! Theorems. -/

/-- Sanity check of the SHA-256 embedding against the FIPS 180-4 test
vector for the message `abc`. -/
example : sha256_hex "abc" = "ba7816bf8f01cfea414140de5dae2223b00361a396177a9cb410ff61f20015ad" := by
  decide

/-- C1: `pick_text` returns the native value, confidence and source label
whenever the native confidence is at least the OCR confidence (ties
included), and the OCR value, confidence and label exactly when the OCR
confidence is strictly higher. -/
theorem pick_text_native_tie_break (native ocr_text : String) (c1 c2 : ℚ) :
    (c2 ≤ c1 → pick_text native ocr_text c1 c2 = (native, c1, "native")) ∧
    (c1 < c2 → pick_text native ocr_text c1 c2 = (ocr_text, c2, "ocr")) := by
  constructor
  · intro h
    by_cases h1 : c1 > c2
    · unfold pick_text
      rw [if_pos h1]
    · unfold pick_text
      rw [if_neg h1, if_neg (not_lt.mpr h)]
  · intro h
    unfold pick_text
    rw [if_neg (not_lt.mpr h.le), if_pos h]

/-- Witness for C1: the degenerate 0.0/0.0 tie yields the empty
native-sourced result, and a strictly larger OCR confidence yields the
OCR result. -/
theorem pick_text_native_tie_break_witness :
    ((0 : ℚ) ≤ 0 ∧ pick_text "" "x" (0 : ℚ) 0 = ("", 0, "native")) ∧
    (mkRat 1 2 < 1 ∧ pick_text "a" "b" (mkRat 1 2) 1 = ("b", 1, "ocr")) :=
  ⟨⟨le_refl 0, (pick_text_native_tie_break "" "x" 0 0).1 (le_refl 0)⟩,
   ⟨by decide, (pick_text_native_tie_break "a" "b" (mkRat 1 2) 1).2 (by decide)⟩⟩

/-- C9: the confidence returned by `pick_text` is the maximum of the two
confidences, so the stored `max(native, ocr)` of the scalar and line-item
fields and the picked-source confidence of the tax and amount fields agree
as functions of the two agent results. -/
theorem pick_text_confidence_is_max :
    (∀ (native ocr_text : String) (c1 c2 : ℚ),
        (pick_text native ocr_text c1 c2).2.1 = max c1 c2) ∧
    (∀ r1 r2 : AgentResult,
        max r1.confidence r2.confidence =
          (pick_text (r1.value.getD "") (r2.value.getD "") r1.confidence r2.confidence).2.1) := by
  have h : ∀ (native ocr_text : String) (c1 c2 : ℚ),
      (pick_text native ocr_text c1 c2).2.1 = max c1 c2 := by
    intro n o c1 c2
    unfold pick_text
    split_ifs with h1 h2
    · simp [max_eq_left h1.le]
    · simp [max_eq_right h2.le]
    · simp [max_eq_left (not_lt.mp h2)]
  exact ⟨h, fun r1 r2 => (h _ _ _ _).symm⟩

/-- C8: with both fingerprints null the duplicate locator returns the
empty set and issues no query to the store, whatever the store would
answer. -/
theorem find_duplicates_no_signal_no_query (store : String → List String → List Nat) :
    find_duplicates none none store = ([], 0) := rfl

/-- C3: the content fingerprint is the SHA-256 hex digest of the
normalized text exactly when the normalized length exceeds 200, and null
otherwise; in particular 200 lowercase characters yield null and 201 yield
a non-null digest. -/
theorem content_fingerprint_threshold :
    (∀ (text : String) (meta : MetaIn),
        (compute_fingerprints text meta).1 =
          if 200 < (normalize_text text).length then some (sha256_hex (normalize_text text))
          else none) ∧
    (compute_fingerprints (String.mk (List.replicate 200 'a')) ⟨none, none, none, none⟩).1 =
      none ∧
    (compute_fingerprints (String.mk (List.replicate 201 'a')) ⟨none, none, none, none⟩).1 ≠
      none := by
  refine ⟨fun text meta => rfl, by decide, by decide⟩

/-- C4: the metadata fingerprint is the SHA-256 digest of the `|`-join of
the non-empty lowercased, trimmed metadata values in the fixed order
vendor, invoice number, total, date — and it is null when all four values
trim to empty. -/
theorem metadata_fingerprint_rule (text : String) (meta : MetaIn) :
    ((compute_fingerprints text meta).2 =
      (if (String.intercalate "|"
            ([pyLower (pyStrip (meta.vendor.getD "")),
              pyLower (pyStrip (meta.invoice_number.getD "")),
              pyLower (pyStrip (meta.amount_total.getD "")),
              pyLower (pyStrip (meta.invoice_date.getD ""))].filter
                (fun s => !s.isEmpty))).isEmpty
       then none
       else some (sha256_hex (String.intercalate "|"
            ([pyLower (pyStrip (meta.vendor.getD "")),
              pyLower (pyStrip (meta.invoice_number.getD "")),
              pyLower (pyStrip (meta.amount_total.getD "")),
              pyLower (pyStrip (meta.invoice_date.getD ""))].filter
                (fun s => !s.isEmpty)))))) ∧
    (pyStrip (meta.vendor.getD "") = "" → pyStrip (meta.invoice_number.getD "") = "" →
     pyStrip (meta.amount_total.getD "") = "" → pyStrip (meta.invoice_date.getD "") = "" →
     (compute_fingerprints text meta).2 = none) := by
  constructor
  · cases h : (String.intercalate "|"
        ([pyLower (pyStrip (meta.vendor.getD "")),
          pyLower (pyStrip (meta.invoice_number.getD "")),
          pyLower (pyStrip (meta.amount_total.getD "")),
          pyLower (pyStrip (meta.invoice_date.getD ""))].filter
            (fun s => !s.isEmpty))).isEmpty <;>
      simp [compute_fingerprints, h]
  · intro hv hi ht hd
    simp [compute_fingerprints, hv, hi, ht, hd]
    decide

/-- Witness for C4: all four metadata inputs empty or whitespace-only
yield a null metadata fingerprint. -/
theorem metadata_fingerprint_rule_witness :
    pyStrip " " = "" ∧
    (compute_fingerprints "t" ⟨some " ", some "", none, some "  "⟩).2 = none :=
  ⟨by decide,
   (metadata_fingerprint_rule "t" ⟨some " ", some "", none, some "  "⟩).2
     (by decide) (by decide) (by decide) (by decide)⟩

/-- C2 (code bug): on the spec's scenario text with empty OCR text the
pipeline yields the claimed vendor, invoice number, subtotal and HST
values, all native-sourced — but `amount_total` is `"500.00"`, not the
claimed `"565.00"`, because the case-insensitive label pattern for
`Total` has no word boundary and first matches the `total` inside
`Subtotal: 500.00`. -/
theorem run_agents_scenario_amount_total_bug :
    (run_agents scenarioText "").vendor.value = some "Acme Corp" ∧
    (run_agents scenarioText "").vendor.confidence = mkRat 9 10 ∧
    (run_agents scenarioText "").vendor.picked = "native" ∧
    (run_agents scenarioText "").invoice_number.value = some "12345" ∧
    (run_agents scenarioText "").invoice_number.confidence = mkRat 9 10 ∧
    (run_agents scenarioText "").invoice_number.picked = "native" ∧
    (run_agents scenarioText "").amount_before_hst.value = some "500.00" ∧
    (run_agents scenarioText "").amount_before_hst.picked = "native" ∧
    (run_agents scenarioText "").hst_amount.value = some "65.00" ∧
    (run_agents scenarioText "").hst_amount.picked = "native" ∧
    (run_agents scenarioText "").amount_total.value = some "500.00" ∧
    (run_agents scenarioText "").amount_total.picked = "native" ∧
    (run_agents scenarioText "").amount_total.value ≠ some "565.00" := by
  decide

/-- C6 (counterexample): the `INV`-prefix fallback of the invoice-number
agent is compiled without `re.IGNORECASE`, so the lowercase token
`inv-001` is not matched at all — the agent returns no value with
confidence 0, not the token with confidence 0.5. -/
theorem invoice_fallback_case_sensitive_counterexample :
    (agent_invoice_number "inv-001").value = none ∧
    (agent_invoice_number "inv-001").confidence = 0 ∧
    agent_invoice_number "inv-001" ≠
      ⟨some "inv-001", mkRat 1 2, [("source", "inv")]⟩ := by
  decide

/-- C6 (amended): when the labelled invoice pattern finds nothing and the
case-sensitive `INV[\w-]+` findall finds a token with uppercase `INV`
prefix, the agent returns the first such token with confidence 0.5. -/
theorem invoice_fallback_uppercase_inv (text t : String) (ts : List String)
    (hlabel : invoiceScan text.data = none) (hfind : invFindall text = t :: ts) :
    agent_invoice_number text = ⟨some t, mkRat 1 2, [("source", "inv")]⟩ := by
  unfold agent_invoice_number
  rw [hlabel, hfind]

/-- Witness for C6 (amended) at the text `INV-001`. -/
theorem invoice_fallback_uppercase_inv_witness :
    invoiceScan "INV-001".data = none ∧ invFindall "INV-001" = ["INV-001"] ∧
    agent_invoice_number "INV-001" = ⟨some "INV-001", mkRat 1 2, [("source", "inv")]⟩ :=
  ⟨by decide, by decide,
   invoice_fallback_uppercase_inv "INV-001" "INV-001" [] (by decide) (by decide)⟩

/-- C5 (counterexample): a qualifying line with leading whitespace shows
that the row description is the line truncated to 80 characters *and then
stripped*, not the bare truncation the claim states. -/
theorem line_items_description_strips_counterexample :
    ((agent_line_items " 2 Widgets 10.00 1.30 11.30").rows.map LineItemRow.description) =
      ["2 Widgets 10.00 1.30 11.30"] ∧
    (" 2 Widgets 10.00 1.30 11.30" : String).take 80 ≠ "2 Widgets 10.00 1.30 11.30" := by
  decide

/-- C5 (amended): every qualifying line yields a row whose unit price is
the first money token, tax the second money token if present else empty,
line total the last money token, description the line truncated to 80
characters and stripped, coding empty and qty the quantity token; the
agent's confidence is 0.6 when at least one row is found and 0.1 with an
empty row sequence otherwise. -/
theorem line_items_row_construction :
    (∀ text : String,
        ((agent_line_items text).rows ≠ [] → (agent_line_items text).confidence = mkRat 3 5) ∧
        ((agent_line_items text).rows = [] → (agent_line_items text).confidence = mkRat 1 10)) ∧
    (∀ (line m q : String) (ms : List String),
        moneyFindall line = m :: ms → qtyGroup line = some q →
        lineRow line = some { qty := q, description := pyStrip (line.take 80), coding := "",
                              unit_price := m, tax := ms.headD "",
                              line_total := (m :: ms).getLast (List.cons_ne_nil m ms) }) ∧
    (∀ (text line : String) (r : LineItemRow),
        line ∈ pyLines text → lineRow line = some r → r ∈ (agent_line_items text).rows) := by
  refine ⟨?_, ?_, ?_⟩
  · intro text
    cases h : (pyLines text).filterMap lineRow with
    | nil => constructor <;> simp [agent_line_items, h]
    | cons a l => constructor <;> simp [agent_line_items, h]
  · intro line m q ms hm hq
    unfold lineRow
    rw [hm, hq]
  · intro text line r hline hrow
    have hmem : r ∈ (pyLines text).filterMap lineRow :=
      List.mem_filterMap.mpr ⟨line, hline, hrow⟩
    cases h : (pyLines text).filterMap lineRow with
    | nil => rw [h] at hmem; exact absurd hmem (List.not_mem_nil r)
    | cons a l =>
      rw [h] at hmem
      simpa [agent_line_items, h] using hmem

/-- Witness for C5 (amended) at the spec's scenario line. -/
theorem line_items_row_construction_witness :
    moneyFindall "2 Widgets 10.00 1.30 11.30" = ["10.00", "1.30", "11.30"] ∧
    qtyGroup "2 Widgets 10.00 1.30 11.30" = some "2" ∧
    lineRow "2 Widgets 10.00 1.30 11.30" =
      some { qty := "2", description := "2 Widgets 10.00 1.30 11.30", coding := "",
             unit_price := "10.00", tax := "1.30", line_total := "11.30" } ∧
    (agent_line_items "2 Widgets 10.00 1.30 11.30").confidence = mkRat 3 5 := by
  refine ⟨by decide, by decide, ?_, ?_⟩
  · have h := line_items_row_construction.2.1 "2 Widgets 10.00 1.30 11.30" "10.00" "2"
      ["1.30", "11.30"] (by decide) (by decide)
    rw [h]
    decide
  · exact (line_items_row_construction.1 "2 Widgets 10.00 1.30 11.30").1 (by decide)

/-- Python's `max` with a key returns the initial element or a list
element. -/
theorem pyMaxByConf_mem (c : AgentResult) (cs : List AgentResult) :
    pyMaxByConf c cs = c ∨ pyMaxByConf c cs ∈ cs := by
  induction cs generalizing c with
  | nil => left; rfl
  | cons a l ih =>
    unfold pyMaxByConf
    rw [List.foldl_cons]
    rcases ih (if a.confidence > c.confidence then a else c) with h | h
    · rw [show (l.foldl (fun best x => if x.confidence > best.confidence then x else best)
          (if a.confidence > c.confidence then a else c)) = pyMaxByConf
          (if a.confidence > c.confidence then a else c) l from rfl] at *
      rw [h]
      split_ifs with hh
      · right; exact List.mem_cons_self a l
      · left; rfl
    · right
      exact List.mem_cons_of_mem a h

/-- Every address candidate carries confidence 0.75. -/
theorem addressCandidates_conf (bs : List String) :
    ∀ r ∈ addressCandidates bs, r.confidence = mkRat 3 4 := by
  induction bs with
  | nil => intro r h; exact absurd h (List.not_mem_nil r)
  | cons b l ih =>
    intro r h
    unfold addressCandidates at h
    rw [List.mem_append] at h
    rcases h with h | h
    · split_ifs at h with hc
      · rw [List.mem_singleton.mp h]
        rfl
      · exact absurd h (List.not_mem_nil r)
    · exact ih r h

/-- C7: every agent's confidence lies in the unit interval, for every
input text and every tax/amount label. -/
theorem agent_confidences_in_unit_interval (text label : String) :
    confIn01 (agent_vendor text).confidence ∧
    confIn01 (agent_hst text).confidence ∧
    confIn01 (agent_address text).confidence ∧
    confIn01 (agent_description text).confidence ∧
    confIn01 (agent_invoice_number text).confidence ∧
    confIn01 (agent_invoice_date text).confidence ∧
    confIn01 (agent_line_items text).confidence ∧
    confIn01 (agent_tax text label).confidence ∧
    confIn01 (agent_amount text label).confidence := by
  refine ⟨?_, ?_, ?_, ?_, ?_, ?_, ?_, ?_, ?_⟩
  · unfold agent_vendor confIn01
    cases h : vendorScan text.data with
    | none =>
      simp only [h]
      cases h2 : ((py_splitlines text).map pyStrip).filter (fun l => !l.isEmpty) with
      | nil => simp only [h2]; exact ⟨by decide, by decide⟩
      | cons a l => simp only [h2]; exact ⟨by decide, by decide⟩
    | some g => simp only [h]; exact ⟨by decide, by decide⟩
  · unfold agent_hst confIn01
    cases h : hstScanGo none text.data <;> simp only [h] <;> exact ⟨by decide, by decide⟩
  · unfold agent_address confIn01
    cases h : addressCandidates
        (((py_splitlines text).map pyStrip).filter (fun l => !l.isEmpty)) with
    | nil =>
      simp only [h]
      cases h2 : ((py_splitlines text).map pyStrip).filter (fun l => !l.isEmpty) with
      | nil => simp only [h2]; exact ⟨by decide, by decide⟩
      | cons a l => simp only [h2]; exact ⟨by decide, by decide⟩
    | cons c cs =>
      simp only [h]
      have hconf : (pyMaxByConf c cs).confidence = mkRat 3 4 := by
        rcases pyMaxByConf_mem c cs with hm | hm
        · rw [hm]
          exact addressCandidates_conf _ c (h ▸ List.mem_cons_self c cs)
        · exact addressCandidates_conf _ _ (h ▸ List.mem_cons_of_mem c hm)
      rw [hconf]
      exact ⟨by decide, by decide⟩
  · unfold agent_description confIn01
    cases h : descrFind (((py_splitlines text).map pyStrip).filter (fun l => !l.isEmpty)) with
    | none =>
      simp only [h]
      cases h2 : ((py_splitlines text).map pyStrip).filter (fun l => !l.isEmpty) with
      | nil => simp only [h2]; exact ⟨by decide, by decide⟩
      | cons a l =>
        simp only [h2]
        split_ifs <;> exact ⟨by decide, by decide⟩
    | some l => simp only [h]; exact ⟨by decide, by decide⟩
  · unfold agent_invoice_number confIn01
    cases h : invoiceScan text.data with
    | none =>
      simp only [h]
      cases h2 : invFindall text <;> simp only [h2] <;> exact ⟨by decide, by decide⟩
    | some g => simp only [h]; exact ⟨by decide, by decide⟩
  · unfold agent_invoice_date confIn01
    cases h : dateScan text.data with
    | none => simp only [h]; exact ⟨by decide, by decide⟩
    | some raw =>
      simp only [h]
      cases h2 : parseDateModel raw <;> simp only [h2] <;> exact ⟨by decide, by decide⟩
  · unfold agent_line_items confIn01
    cases h : (pyLines text).filterMap lineRow with
    | nil => simp only [h]; exact ⟨by decide, by decide⟩
    | cons a l =>
      simp only [h, List.isEmpty_cons, Bool.false_eq_true, if_false]
      exact ⟨by decide, by decide⟩
  · unfold agent_tax confIn01
    cases h : amtScan (label.data.map toLowerCh) text.data <;> simp only [h] <;>
      exact ⟨by decide, by decide⟩
  · unfold agent_amount confIn01
    cases h : amtScan (label.data.map toLowerCh) text.data with
    | none =>
      simp only [h]
      cases h2 : (moneyFindall text).getLast? <;> simp only [h2] <;>
        exact ⟨by decide, by decide⟩
    | some g => simp only [h]; exact ⟨by decide, by decide⟩

/-- Dropping the digit run reaches the `dropWhile` suffix. -/
theorem drop_length_takeWhile (p : Char → Bool) (s : List Char) :
    s.drop (s.takeWhile p).length = s.dropWhile p := by
  induction s with
  | nil => rfl
  | cons c cs ih =>
    by_cases h : p c = true
    · simp [List.takeWhile_cons, List.dropWhile_cons, h, ih]
    · simp [List.takeWhile_cons, List.dropWhile_cons, h]

/-- Positions strictly inside the `takeWhile` run satisfy the predicate. -/
theorem takeWhile_pred_of_lt (p : Char → Bool) :
    ∀ (s : List Char) (k : Nat), k < (s.takeWhile p).length →
      ∃ c cs, s.drop k = c :: cs ∧ p c = true := by
  intro s
  induction s with
  | nil => intro k hk; simp at hk
  | cons a l ih =>
    intro k hk
    by_cases h : p a = true
    · cases k with
      | zero => exact ⟨a, l, rfl, h⟩
      | succ k2 =>
        rw [List.takeWhile_cons, if_pos h] at hk
        simp only [List.length_cons] at hk
        exact ih k2 (Nat.lt_of_succ_lt_succ hk)
    · rw [List.takeWhile_cons, if_neg h] at hk
      simp at hk

/-- A successful bounded-greedy digit repetition consumed between `lo` and
`j` characters before its continuation succeeded. -/
theorem goDigits_some (lo : Nat) (cont : List Char → Option (List Char)) (rest : List Char) :
    ∀ (j : Nat) (r : List Char), goDigits lo cont rest j = some r →
      ∃ k, lo ≤ k ∧ k ≤ j ∧ cont (rest.drop k) = some r := by
  intro j
  induction j with
  | zero =>
    intro r h
    unfold goDigits at h
    split_ifs at h with hlo
    exact ⟨0, Nat.le_of_eq hlo, Nat.le_refl 0, h⟩
  | succ j2 ih =>
    intro r h
    unfold goDigits at h
    split_ifs at h with hlo
    rcases hc : cont (rest.drop (j2 + 1)) with _ | r2
    · rw [hc] at h
      rcases ih r h with ⟨k, hk1, hk2, hk3⟩
      exact ⟨k, hk1, Nat.le_succ_of_le hk2, hk3⟩
    · rw [hc] at h
      injection h with h2
      rw [h2] at hc
      exact ⟨j2 + 1, Nat.not_lt.mp hlo, Nat.le_refl _, hc⟩

/-- A successful greedy comma-group star consumed whole four-character
units before its continuation succeeded. -/
theorem tryCommaGroups_some (cont : List Char → Option (List Char)) (rest : List Char) :
    ∀ (j : Nat) (r : List Char), tryCommaGroups cont rest j = some r →
      ∃ k, k ≤ j ∧ cont (rest.drop (4 * k)) = some r := by
  intro j
  induction j with
  | zero =>
    intro r h
    exact ⟨0, Nat.le_refl 0, h⟩
  | succ j2 ih =>
    intro r h
    unfold tryCommaGroups at h
    rcases hc : cont (rest.drop (4 * (j2 + 1))) with _ | r2
    · rw [hc] at h
      rcases ih r h with ⟨k, hk1, hk2⟩
      exact ⟨k, Nat.le_succ_of_le hk1, hk2⟩
    · rw [hc] at h
      injection h with h2
      rw [h2] at hc
      exact ⟨j2 + 1, Nat.le_refl _, hc⟩

/-- A positive comma-group count forces a leading comma. -/
theorem countCommaGroups_pos (r : List Char) (h : 1 ≤ countCommaGroups r) :
    ∃ rest, r = ',' :: rest := by
  unfold countCommaGroups at h
  split at h
  · exact ⟨_, rfl⟩
  · simp at h

/-- A successful `\.\d{2}` match forces a leading dot. -/
theorem dotTwo_head (r x : List Char) (h : dotTwo r = some x) :
    ∃ rest, r = '.' :: rest := by
  unfold dotTwo at h
  split at h
  · exact ⟨_, rfl⟩
  · exact absurd h (by simp)

/-- After the digit part of `MONEY_PAT`, the successful remainder starts
with a comma or a dot. -/
theorem commaStar_head (r x : List Char)
    (h : tryCommaGroups dotTwo r (countCommaGroups r) = some x) :
    ∃ c rest, r = c :: rest ∧ (c = ',' ∨ c = '.') := by
  rcases tryCommaGroups_some dotTwo r (countCommaGroups r) x h with ⟨k, hk, hc⟩
  cases k with
  | zero =>
    rcases dotTwo_head _ _ (show dotTwo r = some x from hc) with ⟨rest, hr⟩
    exact ⟨'.', rest, hr, Or.inr rfl⟩
  | succ k2 =>
    rcases countCommaGroups_pos r (by omega) with ⟨rest, hr⟩
    exact ⟨',', rest, hr, Or.inl rfl⟩

/-- A drop position whose head is not a digit and that lies within the
digit run must be exactly the end of the run. -/
theorem drop_head_not_digit_eq (s : List Char) (k : Nat) (c : Char) (rest : List Char)
    (hk : k ≤ (s.takeWhile isDigitCh).length)
    (hdrop : s.drop k = c :: rest) (hc : isDigitCh c = false) :
    k = (s.takeWhile isDigitCh).length := by
  by_contra hne
  have hlt : k < (s.takeWhile isDigitCh).length := lt_of_le_of_ne hk hne
  rcases takeWhile_pred_of_lt isDigitCh s k hlt with ⟨d, ds, hd, hpd⟩
  rw [hdrop] at hd
  injection hd with h1 h2
  rw [← h1] at hpd
  rw [hpd] at hc
  exact Bool.noConfusion hc

/-- A successful `MONEY_PAT` attempt means the position starts with a
non-empty digit run followed by a comma or a dot. -/
theorem moneyAt_run_sep (prev : Option Char) (s : List Char) (len : Nat)
    (h : moneyAt prev s = some len) :
    s.takeWhile isDigitCh ≠ [] ∧
    ∃ c rest, s.dropWhile isDigitCh = c :: rest ∧ (c = ',' ∨ c = '.') := by
  unfold moneyAt at h
  split_ifs at h with hd
  split at h
  next r heq =>
    split at heq
    next r2 heq2 =>
      injection heq with he
      rw [he] at heq2
      rcases goDigits_some 1 _ s _ r heq2 with ⟨k, hk1, hk2, hk3⟩
      rcases commaStar_head _ _ hk3 with ⟨c, rest, hr, hcd⟩
      have hkrun : k = (s.takeWhile isDigitCh).length := by
        refine drop_head_not_digit_eq s k c rest ?_ hr ?_
        · exact le_trans hk2 (Nat.min_le_right 3 _)
        · rcases hcd with rfl | rfl <;> decide
      constructor
      · intro hnil
        rw [hnil] at hkrun
        simp at hkrun
        omega
      · rw [← drop_length_takeWhile, ← hkrun]
        exact ⟨c, rest, hr, hcd⟩
    next heq2 =>
      rcases goDigits_some 1 _ s _ r heq with ⟨k, hk1, hk2, hk3⟩
      rcases dotTwo_head _ _ hk3 with ⟨rest, hr⟩
      have hkrun : k = (s.takeWhile isDigitCh).length :=
        drop_head_not_digit_eq s k '.' rest hk2 hr (by decide)
      constructor
      · intro hnil
        rw [hnil] at hkrun
        simp at hkrun
        omega
      · rw [← drop_length_takeWhile, ← hkrun]
        exact ⟨'.', rest, hr, Or.inr rfl⟩
  next heq => exact absurd h (by simp)

/-- The optional-fraction step of the quantity pattern succeeds whenever
the remainder starts with a comma or a dot. -/
theorem qtyOptFrac_isSome_sep (c : Char) (rest : List Char) (hc : c = ',' ∨ c = '.') :
    (qtyOptFrac (c :: rest)).isSome := by
  rcases hc with rfl | rfl
  · simp [qtyOptFrac, boundaryAfter]
    decide
  · unfold qtyOptFrac
    rcases hg : goDigits 1 boundaryAfter rest (rest.takeWhile isDigitCh).length with _ | r
    · simp [hg, boundaryAfter]
      decide
    · simp [hg]

/-- A quantity-pattern attempt succeeds at a position that starts with a
non-empty digit run followed by a comma or a dot, when the preceding
character is not a word character. -/
theorem qtyAt_isSome_of_run_sep (prev : Option Char) (s : List Char)
    (hw : isWordOpt prev = false)
    (hne : s.takeWhile isDigitCh ≠ [])
    (c : Char) (rest : List Char)
    (hsep : s.dropWhile isDigitCh = c :: rest)
    (hc : c = ',' ∨ c = '.') :
    (qtyAt prev s).isSome := by
  have hrl : 0 < (s.takeWhile isDigitCh).length := List.length_pos.mpr hne
  rcases takeWhile_pred_of_lt isDigitCh s 0 hrl with ⟨a, s2, ha, hpa⟩
  have hs : s = a :: s2 := by simpa using ha
  have hdrop : s.drop (s.takeWhile isDigitCh).length = c :: rest := by
    rw [drop_length_takeWhile]; exact hsep
  obtain ⟨j, hj⟩ : ∃ j, (s.takeWhile isDigitCh).length = j + 1 :=
    ⟨(s.takeWhile isDigitCh).length - 1, by omega⟩
  have hgo : ∃ r, goDigits 1 qtyOptFrac s (s.takeWhile isDigitCh).length = some r := by
    rw [hj]
    unfold goDigits
    rw [if_neg (by omega)]
    rcases hopt : qtyOptFrac (s.drop (j + 1)) with _ | r
    · rw [hj] at hdrop
      rw [hdrop] at hopt
      have hsome := qtyOptFrac_isSome_sep c rest hc
      rw [hopt] at hsome
      simp at hsome
    · exact ⟨r, rfl⟩
  rcases hgo with ⟨r, hr⟩
  unfold qtyAt
  simp only [hw, Bool.false_eq_true, if_false]
  rw [hs] at hr ⊢
  simp only [hpa, if_true, hr]
  rfl

/-- `MONEY_PAT` never matches at the end of the text. -/
theorem moneyAt_nil (prev : Option Char) : moneyAt prev [] = none := by
  unfold moneyAt
  split_ifs <;> rfl

/-- The quantity pattern never matches at the end of the text. -/
theorem qtyAt_nil (prev : Option Char) : qtyAt prev [] = none := by
  unfold qtyAt
  split_ifs <;> rfl

/-- Scanning state: the previous character of the suffix after `pre`. -/
theorem prevOf_cons (prev : Option Char) (p : Char) (ps : List Char) :
    prevOf prev (p :: ps) = prevOf (some p) ps := by
  cases ps with
  | nil => rfl
  | cons q qs =>
    unfold prevOf
    rw [List.getLast?_cons_cons]
    cases hq : (q :: qs).getLast? with
    | none => exact absurd hq (by simp)
    | some x => rfl

/-- If a money attempt succeeds somewhere in the scanned text, the findall
scan returns at least one token (any sufficient fuel). -/
theorem moneyScanF_ne_nil (pre : List Char) :
    ∀ (suf : List Char) (prev : Option Char) (fuel : Nat),
      (pre ++ suf).length ≤ fuel →
      (moneyAt (prevOf prev pre) suf).isSome →
      moneyScanF fuel prev (pre ++ suf) ≠ [] := by
  induction pre with
  | nil =>
    intro suf prev fuel hfuel hsome
    cases suf with
    | nil => rw [show prevOf prev [] = prev from rfl, moneyAt_nil] at hsome; simp at hsome
    | cons c cs =>
      cases fuel with
      | zero => simp at hfuel
      | succ f =>
        show moneyScanF (f + 1) prev (c :: cs) ≠ []
        unfold moneyScanF
        rcases hm : moneyAt prev (c :: cs) with _ | len
        · rw [show prevOf prev [] = prev from rfl, hm] at hsome; simp at hsome
        · simp [hm]
  | cons p ps ih =>
    intro suf prev fuel hfuel hsome
    cases fuel with
    | zero => simp at hfuel
    | succ f =>
      show moneyScanF (f + 1) prev (p :: (ps ++ suf)) ≠ []
      unfold moneyScanF
      rcases hm : moneyAt prev (p :: (ps ++ suf)) with _ | len
      · simp only [hm]
        refine ih suf (some p) f ?_ ?_
        · simp only [List.length_append, List.length_cons] at hfuel ⊢
          omega
        · rw [← prevOf_cons]; exact hsome
      · simp [hm]

/-- If a quantity attempt succeeds somewhere in the scanned text, the
search scan succeeds. -/
theorem qtyScanGo_isSome (pre : List Char) :
    ∀ (suf : List Char) (prev : Option Char),
      (qtyAt (prevOf prev pre) suf).isSome →
      (qtyScanGo prev (pre ++ suf)).isSome := by
  induction pre with
  | nil =>
    intro suf prev hsome
    cases suf with
    | nil => rw [show prevOf prev [] = prev from rfl, qtyAt_nil] at hsome; simp at hsome
    | cons c cs =>
      show (qtyScanGo prev (c :: cs)).isSome
      unfold qtyScanGo
      rcases hm : qtyAt prev (c :: cs) with _ | g
      · rw [show prevOf prev [] = prev from rfl, hm] at hsome; simp at hsome
      · simp [hm]
  | cons p ps ih =>
    intro suf prev hsome
    show (qtyScanGo prev (p :: (ps ++ suf))).isSome
    unfold qtyScanGo
    rcases hm : qtyAt prev (p :: (ps ++ suf)) with _ | g
    · simp only [hm]
      exact ih suf (some p) (by rw [← prevOf_cons]; exact hsome)
    · simp [hm]

/-- C10 (counterexample): the line `abc10.00x` contains a money-shaped
token, yet it does not qualify as a line-item row, because the quantity
regex finds no word-boundary match in it; the claim's universal statement
fails on it. -/
theorem money_token_without_boundary_counterexample :
    moneyFindall "abc10.00x" = ["10.00"] ∧
    qtyGroup "abc10.00x" = none ∧
    lineRow "abc10.00x" = none ∧
    (agent_line_items "abc10.00x").rows = [] ∧
    (agent_line_items "abc10.00x").confidence = mkRat 1 10 := by
  decide

/-- C10 (amended): a line containing a money-shaped token whose match
position is not preceded by a word character qualifies as a line-item row,
because the quantity regex is then guaranteed a match; whenever such a
line is among a text's non-blank lines, the agent produces at least one
row. -/
theorem money_token_with_boundary_qualifies (line : String) (pre suf : List Char)
    (hsplit : line.data = pre ++ suf)
    (hw : isWordOpt (prevOf none pre) = false)
    (hmoney : (moneyAt (prevOf none pre) suf).isSome) :
    (lineRow line).isSome ∧
    ∀ text : String, line ∈ pyLines text → (agent_line_items text).rows ≠ [] := by
  have hbase : moneyScanF line.data.length none line.data ≠ [] := by
    rw [hsplit]
    exact moneyScanF_ne_nil pre suf none (pre ++ suf).length (le_refl _) hmoney
  have hfa : moneyFindall line ≠ [] := by
    unfold moneyFindall
    intro hc
    exact hbase (List.map_eq_nil_iff.mp hc)
  have hqat : (qtyAt (prevOf none pre) suf).isSome := by
    rcases Option.isSome_iff_exists.mp hmoney with ⟨len, hlen⟩
    rcases moneyAt_run_sep _ _ _ hlen with ⟨hne, c, rest, hsep, hc⟩
    exact qtyAt_isSome_of_run_sep _ _ hw hne c rest hsep hc
  have hqty : (qtyGroup line).isSome := by
    unfold qtyGroup
    rw [hsplit]
    rcases Option.isSome_iff_exists.mp (qtyScanGo_isSome pre suf none hqat) with ⟨g, hg⟩
    rw [hg]
    rfl
  have hrow : (lineRow line).isSome := by
    rcases List.exists_cons_of_ne_nil hfa with ⟨m, ms, hm⟩
    rcases Option.isSome_iff_exists.mp hqty with ⟨q, hq⟩
    unfold lineRow
    rw [hm, hq]
    rfl
  refine ⟨hrow, ?_⟩
  intro text hmem
  rcases Option.isSome_iff_exists.mp hrow with ⟨r, hr⟩
  have hmem2 : r ∈ (pyLines text).filterMap lineRow :=
    List.mem_filterMap.mpr ⟨line, hmem, hr⟩
  cases h : (pyLines text).filterMap lineRow with
  | nil => rw [h] at hmem2; exact absurd hmem2 (List.not_mem_nil r)
  | cons a l => simp [agent_line_items, h]

/-- Witness for C10 (amended) at the line `Widgets 10.00`: the money token
is preceded by a space, the line qualifies, and its qty equals its unit
price. -/
theorem money_token_with_boundary_qualifies_witness :
    ("Widgets 10.00" : String).data = "Widgets ".data ++ "10.00".data ∧
    isWordOpt (prevOf none ("Widgets ".data)) = false ∧
    (moneyAt (prevOf none ("Widgets ".data)) "10.00".data).isSome ∧
    (lineRow "Widgets 10.00").isSome ∧
    (agent_line_items "Widgets 10.00").rows =
      [{ qty := "10.00", description := "Widgets 10.00", coding := "",
         unit_price := "10.00", tax := "", line_total := "10.00" }] := by
  refine ⟨by decide, by decide, by decide, ?_, by decide⟩
  exact (money_token_with_boundary_qualifies "Widgets 10.00" ("Widgets ".data)
    ("10.00".data) (by decide) (by decide) (by decide)).1

end ChqReq
